import Mathlib

/-!
# Verification of the conducto RPC connection protocol

A shallow embedding of the message-correlation engine in
`src/public/libs/conducto.js`: the wire codec (`utils.parse` /
`utils.serialize` over the host JSON encoding), the `Connection`
protocol core (correlation table, action registry, send paths) and the
`Client` keepalive loop, together with theorems settling the spec
claims about them.
-/

namespace Conducto

/-! ## JSON values

`Modelled from the spec:` the wire codec serializes "a single logical
message to/from a UTF-8 text encoding of a structured object"; the
source delegates to the host `JSON.stringify` / `JSON.parse`, which are
not part of the repository.  We model the structured objects as an
inductive tree of JSON values (null, booleans, integer numbers,
strings, arrays, objects with insertion-ordered fields) and the host
codec as a printer and parser for the standard JSON grammar over that
fragment. -/

mutual
inductive JValue : Type where
  | null : JValue
  | bool (b : Bool) : JValue
  | num (n : Int) : JValue
  | str (s : String) : JValue
  | arr (elems : JArr) : JValue
  | obj (fields : JObj) : JValue
inductive JArr : Type where
  | nil : JArr
  | cons (head : JValue) (tail : JArr) : JArr
inductive JObj : Type where
  | nil : JObj
  | cons (key : String) (value : JValue) (tail : JObj) : JObj
end

/-! ### Printing (JSON.stringify) -/

def digitChar10 (n : Nat) : Char := Char.ofNat (48 + n)

def hexDigitChar (n : Nat) : Char :=
  if n < 10 then Char.ofNat (48 + n) else Char.ofNat (87 + n)

/-- `JSON.stringify`'s escaping of a single string character: `"` and `\`
get a backslash escape, the named control characters use their short
escapes, the remaining control characters use `\u00XX`, and everything
else is emitted literally. -/
def escapeChar (c : Char) : List Char :=
  if c = '"' then ['\\', '"']
  else if c = '\\' then ['\\', '\\']
  else if c = Char.ofNat 8 then ['\\', 'b']
  else if c = '\t' then ['\\', 't']
  else if c = '\n' then ['\\', 'n']
  else if c = Char.ofNat 12 then ['\\', 'f']
  else if c = '\r' then ['\\', 'r']
  else if c.toNat < 32 then
    ['\\', 'u', '0', '0', hexDigitChar (c.toNat / 16), hexDigitChar (c.toNat % 16)]
  else [c]

def escapeString : List Char → List Char
  | [] => []
  | c :: rest => escapeChar c ++ escapeString rest

def printString (s : String) : List Char :=
  '"' :: (escapeString s.data ++ ['"'])

/-- Decimal digits of `n`, most significant first; fuel-driven so that it
is structurally recursive (any `fuel > n` is enough). -/
def printNatAux : Nat → Nat → List Char
  | 0, _ => []
  | fuel + 1, n =>
    if n < 10 then [digitChar10 n]
    else printNatAux fuel (n / 10) ++ [digitChar10 (n % 10)]

def printNatCh (n : Nat) : List Char := printNatAux (n + 1) n

def printIntCh (n : Int) : List Char :=
  if n < 0 then '-' :: printNatCh n.natAbs else printNatCh n.toNat

/-- The keyword literals of the JSON grammar. -/
def nullChars : List Char := ['n', 'u', 'l', 'l']

def trueChars : List Char := ['t', 'r', 'u', 'e']

def falseChars : List Char := ['f', 'a', 'l', 's', 'e']

mutual
def printJV : JValue → List Char
  | .null => nullChars
  | .bool true => trueChars
  | .bool false => falseChars
  | .num n => printIntCh n
  | .str s => printString s
  | .arr .nil => ['[', ']']
  | .arr (.cons v t) => '[' :: (printJV v ++ printArrRest t ++ [']'])
  | .obj .nil => ['{', '}']
  | .obj (.cons k v t) => '{' :: (printString k ++ ':' :: printJV v ++ printObjRest t ++ ['}'])
def printArrRest : JArr → List Char
  | .nil => []
  | .cons v t => ',' :: (printJV v ++ printArrRest t)
def printObjRest : JObj → List Char
  | .nil => []
  | .cons k v t => ',' :: (printString k ++ ':' :: printJV v ++ printObjRest t)
end

def jsonText (v : JValue) : String := String.mk (printJV v)

/-! ### Parsing (JSON.parse) -/

def isDigitChar (c : Char) : Bool := 48 ≤ c.toNat && c.toNat ≤ 57

def hexVal (c : Char) : Option Nat :=
  if 48 ≤ c.toNat && c.toNat ≤ 57 then some (c.toNat - 48)
  else if 97 ≤ c.toNat && c.toNat ≤ 102 then some (c.toNat - 87)
  else if 65 ≤ c.toNat && c.toNat ≤ 70 then some (c.toNat - 55)
  else none

def unescapeChar (e : Char) : Option Char :=
  if e = '"' then some '"'
  else if e = '\\' then some '\\'
  else if e = '/' then some '/'
  else if e = 'b' then some (Char.ofNat 8)
  else if e = 'f' then some (Char.ofNat 12)
  else if e = 'n' then some '\n'
  else if e = 'r' then some '\r'
  else if e = 't' then some '\t'
  else none

/-- Parse the body of a JSON string literal (after the opening quote) up
to and including the closing quote, undoing the escapes.  Raw control
characters are rejected, as in the JSON grammar. -/
def parseStringBody : Nat → List Char → Option (List Char × List Char)
  | 0, _ => none
  | fuel + 1, cs =>
    match cs with
    | [] => none
    | c :: rest =>
      if c = '"' then some ([], rest)
      else if c = '\\' then
        match rest with
        | [] => none
        | e :: rest2 =>
          if e = 'u' then
            match rest2 with
            | h1 :: h2 :: h3 :: h4 :: rest3 =>
              match hexVal h1, hexVal h2, hexVal h3, hexVal h4 with
              | some a, some b, some c2, some d =>
                (parseStringBody fuel rest3).map
                  fun p => (Char.ofNat (((a * 16 + b) * 16 + c2) * 16 + d) :: p.1, p.2)
              | _, _, _, _ => none
            | _ => none
          else
            match unescapeChar e with
            | some u => (parseStringBody fuel rest2).map fun p => (u :: p.1, p.2)
            | none => none
      else if c.toNat < 32 then none
      else (parseStringBody fuel rest).map fun p => (c :: p.1, p.2)

def digitsToNatAux : Nat → List Char → Nat
  | acc, [] => acc
  | acc, c :: rest => digitsToNatAux (acc * 10 + (c.toNat - 48)) rest

/-- Parse a maximal run of decimal digits. -/
def parseNatNum (cs : List Char) : Option (Nat × List Char) :=
  match cs.takeWhile isDigitChar with
  | [] => none
  | ds => some (digitsToNatAux 0 ds, cs.dropWhile isDigitChar)

mutual
def parseJV : Nat → List Char → Option (JValue × List Char)
  | 0, _ => none
  | fuel + 1, cs =>
    match cs with
    | [] => none
    | c :: rest =>
      if c = 'n' then
        match rest with
        | 'u' :: 'l' :: 'l' :: r => some (.null, r)
        | _ => none
      else if c = 't' then
        match rest with
        | 'r' :: 'u' :: 'e' :: r => some (.bool true, r)
        | _ => none
      else if c = 'f' then
        match rest with
        | 'a' :: 'l' :: 's' :: 'e' :: r => some (.bool false, r)
        | _ => none
      else if c = '"' then
        (parseStringBody (rest.length + 1) rest).map fun p => (.str (String.mk p.1), p.2)
      else if c = '-' then
        (parseNatNum rest).map fun p => (.num (-(p.1 : Int)), p.2)
      else if c = '[' then
        match rest with
        | [] => none
        | e :: r =>
          if e = ']' then some (.arr .nil, r)
          else (parseArrItems fuel (e :: r)).map fun p => (.arr p.1, p.2)
      else if c = '{' then
        match rest with
        | [] => none
        | e :: r =>
          if e = '}' then some (.obj .nil, r)
          else (parseObjItems fuel (e :: r)).map fun p => (.obj p.1, p.2)
      else if isDigitChar c then
        (parseNatNum (c :: rest)).map fun p => (.num (p.1 : Int), p.2)
      else none
def parseArrItems : Nat → List Char → Option (JArr × List Char)
  | 0, _ => none
  | fuel + 1, cs =>
    match parseJV fuel cs with
    | none => none
    | some (v, rest) =>
      match rest with
      | ',' :: rest2 => (parseArrItems fuel rest2).map fun p => (.cons v p.1, p.2)
      | ']' :: rest2 => some (.cons v .nil, rest2)
      | _ => none
def parseObjItems : Nat → List Char → Option (JObj × List Char)
  | 0, _ => none
  | fuel + 1, cs =>
    match cs with
    | '"' :: rest =>
      match parseStringBody (rest.length + 1) rest with
      | none => none
      | some (k, rest1) =>
        match rest1 with
        | ':' :: rest2 =>
          match parseJV fuel rest2 with
          | none => none
          | some (v, rest3) =>
            match rest3 with
            | ',' :: rest4 => (parseObjItems fuel rest4).map fun p => (.cons (String.mk k) v p.1, p.2)
            | '}' :: rest4 => some (.cons (String.mk k) v .nil, rest4)
            | _ => none
        | _ => none
    | _ => none
end

/-- `JSON.parse` over the modelled fragment: the whole text must parse
as one value with nothing left over. -/
def jsonParse (s : String) : Option JValue :=
  match parseJV (s.data.length + 1) s.data with
  | some (v, []) => some v
  | _ => none

/-! ### Round-trip: the parser inverts the printer -/

mutual
/-- Fuel bound needed by `parseJV` on the printed form of a value. -/
def sizeJV : JValue → Nat
  | .null => 1
  | .bool _ => 1
  | .num _ => 1
  | .str _ => 1
  | .arr es => sizeArr es + 1
  | .obj fs => sizeObj fs + 1
def sizeArr : JArr → Nat
  | .nil => 0
  | .cons v t => sizeJV v + sizeArr t + 1
def sizeObj : JObj → Nat
  | .nil => 0
  | .cons _ v t => sizeJV v + sizeObj t + 1
end

def noDigitHead : List Char → Bool
  | [] => true
  | c :: _ => !(isDigitChar c)

theorem char_toNat_ofNat {m : Nat} (h : m < 55296) : (Char.ofNat m).toNat = m := by
  unfold Char.ofNat
  rw [dif_pos (Or.inl h)]
  rfl

theorem digitChar10_toNat {n : Nat} (h : n < 10) : (digitChar10 n).toNat = 48 + n := by
  unfold digitChar10
  exact char_toNat_ofNat (by omega)

theorem isDigitChar_digitChar10 {n : Nat} (h : n < 10) : isDigitChar (digitChar10 n) = true := by
  simp [isDigitChar, digitChar10_toNat h]
  omega

theorem hexVal_hexDigitChar {n : Nat} (h : n < 16) : hexVal (hexDigitChar n) = some n := by
  unfold hexVal hexDigitChar
  by_cases h10 : n < 10
  · rw [if_pos h10]
    have ht : (Char.ofNat (48 + n)).toNat = 48 + n := char_toNat_ofNat (by omega)
    rw [if_pos (by simp [ht]; omega)]
    simp [ht]
  · rw [if_neg h10]
    have ht : (Char.ofNat (87 + n)).toNat = 87 + n := char_toNat_ofNat (by omega)
    rw [if_neg (by simp [ht]; omega), if_pos (by simp [ht]; omega)]
    simp [ht]

theorem parseStringBody_escapeChar (c : Char) (f : Nat) (cs out rest : List Char)
    (h : parseStringBody f cs = some (out, rest)) :
    parseStringBody (f + 1) (escapeChar c ++ cs) = some (c :: out, rest) := by
  unfold escapeChar
  by_cases h1 : c = '"'
  · subst h1
    simp [parseStringBody, unescapeChar, h]
  rw [if_neg h1]
  by_cases h2 : c = '\\'
  · subst h2
    simp [parseStringBody, unescapeChar, h]
  rw [if_neg h2]
  by_cases h3 : c = Char.ofNat 8
  · subst h3
    simp [parseStringBody, unescapeChar, h]
  rw [if_neg h3]
  by_cases h4 : c = '\t'
  · subst h4
    simp [parseStringBody, unescapeChar, h]
  rw [if_neg h4]
  by_cases h5 : c = '\n'
  · subst h5
    simp [parseStringBody, unescapeChar, h]
  rw [if_neg h5]
  by_cases h6 : c = Char.ofNat 12
  · subst h6
    simp [parseStringBody, unescapeChar, h]
  rw [if_neg h6]
  by_cases h7 : c = '\r'
  · subst h7
    simp [parseStringBody, unescapeChar, h]
  rw [if_neg h7]
  by_cases h8 : c.toNat < 32
  · rw [if_pos h8]
    have e1 : hexVal (hexDigitChar (c.toNat / 16)) = some (c.toNat / 16) :=
      hexVal_hexDigitChar (by omega)
    have e2 : hexVal (hexDigitChar (c.toNat % 16)) = some (c.toNat % 16) :=
      hexVal_hexDigitChar (by omega)
    have e3 : hexVal '0' = some 0 := by decide
    have e4 : ((0 * 16 + 0) * 16 + c.toNat / 16) * 16 + c.toNat % 16 = c.toNat := by omega
    simp only [parseStringBody, List.cons_append]
    simp [e1, e2, e3, e4, h, Char.ofNat_toNat]
    have e5 : c.toNat / 16 * 16 + c.toNat % 16 = c.toNat := by omega
    rw [e5, Char.ofNat_toNat]
  · rw [if_neg h8]
    simp [parseStringBody, h1, h2, h8, h]

theorem parseStringBody_escapeString (s : List Char) : ∀ (f : Nat) (rest : List Char),
    s.length + 1 ≤ f →
    parseStringBody f (escapeString s ++ '"' :: rest) = some (s, rest) := by
  induction s with
  | nil =>
    intro f rest hf
    match f, hf with
    | f + 1, _ => simp [escapeString, parseStringBody]
  | cons c s ih =>
    intro f rest hf
    match f, hf with
    | f + 1, hf =>
      have hs : s.length + 1 ≤ f := by simpa using hf
      have := parseStringBody_escapeChar c f (escapeString s ++ '"' :: rest) s rest (ih f rest hs)
      simpa [escapeString, List.append_assoc] using this

theorem escapeChar_length (c : Char) : 1 ≤ (escapeChar c).length := by
  unfold escapeChar
  split_ifs <;> simp

theorem escapeString_length (s : List Char) : s.length ≤ (escapeString s).length := by
  induction s with
  | nil => simp [escapeString]
  | cons c s ih =>
    have := escapeChar_length c
    simp only [escapeString, List.length_append, List.length_cons]
    omega

theorem printNatAux_fuel : ∀ f g n, n < f → n < g →
    printNatAux f n = printNatAux g n := by
  intro f
  induction f with
  | zero => intro g n hf _; omega
  | succ f ih =>
    intro g n hf hg
    cases g with
    | zero => omega
    | succ g =>
      by_cases h10 : n < 10
      · simp [printNatAux, h10]
      · simp only [printNatAux, if_neg h10]
        rw [ih g (n / 10) (by omega) (by omega)]

theorem digitsToNatAux_nil (acc : Nat) : digitsToNatAux acc [] = acc := rfl

theorem digitsToNatAux_cons (acc : Nat) (c : Char) (rest : List Char) :
    digitsToNatAux acc (c :: rest) = digitsToNatAux (acc * 10 + (c.toNat - 48)) rest := rfl

theorem digitsToNatAux_append (l1 l2 : List Char) : ∀ acc,
    digitsToNatAux acc (l1 ++ l2) = digitsToNatAux (digitsToNatAux acc l1) l2 := by
  induction l1 with
  | nil => intro acc; rfl
  | cons c t ih =>
    intro acc
    rw [List.cons_append, digitsToNatAux_cons, digitsToNatAux_cons, ih]

theorem digitsToNatAux_printNatAux : ∀ f n, n < f →
    digitsToNatAux 0 (printNatAux f n) = n := by
  intro f
  induction f with
  | zero => intro n hf; omega
  | succ f ih =>
    intro n hf
    by_cases h10 : n < 10
    · simp only [printNatAux, if_pos h10]
      rw [digitsToNatAux_cons, digitsToNatAux_nil, digitChar10_toNat h10]
      omega
    · simp only [printNatAux, if_neg h10]
      rw [digitsToNatAux_append]
      rw [ih (n / 10) (by omega)]
      rw [digitsToNatAux_cons, digitsToNatAux_nil, digitChar10_toNat (show n % 10 < 10 by omega)]
      omega

theorem printNatAux_digits : ∀ f n c, n < f → c ∈ printNatAux f n →
    isDigitChar c = true := by
  intro f
  induction f with
  | zero => intro n c hf _; omega
  | succ f ih =>
    intro n c hf hc
    by_cases h10 : n < 10
    · simp [printNatAux, h10] at hc
      subst hc
      exact isDigitChar_digitChar10 h10
    · simp only [printNatAux, if_neg h10, List.mem_append, List.mem_singleton] at hc
      rcases hc with hc | hc
      · exact ih (n / 10) c (by omega) hc
      · subst hc
        exact isDigitChar_digitChar10 (by omega)

theorem printNatCh_ne_nil (n : Nat) : printNatCh n ≠ [] := by
  unfold printNatCh
  by_cases h10 : n < 10 <;> simp [printNatAux, h10]

theorem printNatCh_digits {n : Nat} {c : Char} (hc : c ∈ printNatCh n) :
    isDigitChar c = true :=
  printNatAux_digits (n + 1) n c (by omega) hc

theorem takeWhile_all_append {p : Char → Bool} :
    ∀ (l1 l2 : List Char), (∀ c ∈ l1, p c = true) →
      (l1 ++ l2).takeWhile p = l1 ++ l2.takeWhile p := by
  intro l1
  induction l1 with
  | nil => intro l2 _; simp
  | cons c t ih =>
    intro l2 hall
    simp only [List.cons_append, List.takeWhile_cons, hall c (by simp), if_true]
    rw [ih l2 (fun d hd => hall d (by simp [hd]))]

theorem dropWhile_all_append {p : Char → Bool} :
    ∀ (l1 l2 : List Char), (∀ c ∈ l1, p c = true) →
      (l1 ++ l2).dropWhile p = l2.dropWhile p := by
  intro l1
  induction l1 with
  | nil => intro l2 _; simp
  | cons c t ih =>
    intro l2 hall
    simp only [List.cons_append, List.dropWhile_cons, hall c (by simp), if_true]
    rw [ih l2 (fun d hd => hall d (by simp [hd]))]

theorem parseNatNum_printNatCh (n : Nat) (rest : List Char)
    (hrest : noDigitHead rest = true) :
    parseNatNum (printNatCh n ++ rest) = some (n, rest) := by
  have hall : ∀ c ∈ printNatCh n, isDigitChar c = true := fun c hc => printNatCh_digits hc
  have hrt : rest.takeWhile isDigitChar = [] := by
    cases rest with
    | nil => rfl
    | cons c t =>
      simp only [noDigitHead, Bool.not_eq_true'] at hrest
      simp [List.takeWhile_cons, hrest]
  have hrd : rest.dropWhile isDigitChar = rest := by
    cases rest with
    | nil => rfl
    | cons c t =>
      simp only [noDigitHead, Bool.not_eq_true'] at hrest
      simp [List.dropWhile_cons, hrest]
  have htake : (printNatCh n ++ rest).takeWhile isDigitChar = printNatCh n := by
    rw [takeWhile_all_append _ _ hall, hrt, List.append_nil]
  have hdrop : (printNatCh n ++ rest).dropWhile isDigitChar = rest := by
    rw [dropWhile_all_append _ _ hall, hrd]
  obtain ⟨c, t, heq⟩ := List.exists_cons_of_ne_nil (printNatCh_ne_nil n)
  have hval : digitsToNatAux 0 (printNatCh n) = n :=
    digitsToNatAux_printNatAux (n + 1) n (by omega)
  unfold parseNatNum
  rw [htake, hdrop, heq]
  simp only []
  rw [← heq, hval]

theorem sizeJV_pos (v : JValue) : 1 ≤ sizeJV v := by
  cases v <;> simp [sizeJV]

theorem isDigitChar_ne {c : Char} (h : isDigitChar c = true) :
    c ≠ 'n' ∧ c ≠ 't' ∧ c ≠ 'f' ∧ c ≠ '"' ∧ c ≠ '-' ∧ c ≠ '[' ∧ c ≠ '{' ∧ c ≠ ']' ∧ c ≠ '}' := by
  refine ⟨?_, ?_, ?_, ?_, ?_, ?_, ?_, ?_, ?_⟩ <;> (rintro rfl; exact absurd h (by decide))

theorem printJV_head (v : JValue) :
    ∃ c t, printJV v = c :: t ∧ c ≠ ']' ∧ c ≠ '}' := by
  cases v with
  | null => exact ⟨'n', _, rfl, by decide, by decide⟩
  | bool b =>
    cases b with
    | true => exact ⟨'t', _, rfl, by decide, by decide⟩
    | false => exact ⟨'f', _, rfl, by decide, by decide⟩
  | num n =>
    simp only [printJV, printIntCh]
    by_cases hn : n < 0
    · rw [if_pos hn]
      exact ⟨'-', _, rfl, by decide, by decide⟩
    · rw [if_neg hn]
      obtain ⟨c, t, heq⟩ := List.exists_cons_of_ne_nil (printNatCh_ne_nil n.toNat)
      have hd : isDigitChar c = true :=
        printNatCh_digits (heq ▸ List.mem_cons_self c t)
      obtain ⟨_, _, _, _, _, _, _, h8, h9⟩ := isDigitChar_ne hd
      exact ⟨c, t, heq, h8, h9⟩
  | str s => exact ⟨'"', _, rfl, by decide, by decide⟩
  | arr es =>
    cases es with
    | nil => exact ⟨'[', _, rfl, by decide, by decide⟩
    | cons v t => exact ⟨'[', _, rfl, by decide, by decide⟩
  | obj fs =>
    cases fs with
    | nil => exact ⟨'{', _, rfl, by decide, by decide⟩
    | cons k v t => exact ⟨'{', _, rfl, by decide, by decide⟩

theorem noDigitHead_cons (c : Char) (l : List Char) :
    noDigitHead (c :: l) = !(isDigitChar c) := rfl

theorem noDigitHead_printArrRest (t : JArr) (rest : List Char) :
    noDigitHead (printArrRest t ++ ']' :: rest) = true := by
  cases t with
  | nil => rw [printArrRest, List.nil_append, noDigitHead_cons]; decide
  | cons v t2 => rw [printArrRest, List.cons_append, noDigitHead_cons]; decide

theorem noDigitHead_printObjRest (t : JObj) (rest : List Char) :
    noDigitHead (printObjRest t ++ '}' :: rest) = true := by
  cases t with
  | nil => rw [printObjRest, List.nil_append, noDigitHead_cons]; decide
  | cons k v t2 => rw [printObjRest, List.cons_append, noDigitHead_cons]; decide

mutual
theorem parseJV_print (v : JValue) : ∀ (fuel : Nat) (rest : List Char),
    sizeJV v ≤ fuel → noDigitHead rest = true →
    parseJV fuel (printJV v ++ rest) = some (v, rest) := by
  cases v with
  | null =>
    intro fuel rest hf _
    cases fuel with
    | zero => exact absurd hf (by simp [sizeJV])
    | succ f => simp [printJV, parseJV, nullChars]
  | bool b =>
    intro fuel rest hf _
    cases fuel with
    | zero => exact absurd hf (by simp [sizeJV])
    | succ f => cases b <;> simp [printJV, parseJV, trueChars, falseChars]
  | num n =>
    intro fuel rest hf hrest
    cases fuel with
    | zero => exact absurd hf (by simp [sizeJV])
    | succ f =>
      simp only [printJV, printIntCh]
      by_cases hn : n < 0
      · rw [if_pos hn]
        simp [parseJV, parseNatNum_printNatCh n.natAbs rest hrest, abs_of_neg hn]
      · rw [if_neg hn]
        obtain ⟨c, t, heq⟩ := List.exists_cons_of_ne_nil (printNatCh_ne_nil n.toNat)
        have hd : isDigitChar c = true :=
          printNatCh_digits (heq ▸ List.mem_cons_self c t)
        obtain ⟨e1, e2, e3, e4, e5, e6, e7, _, _⟩ := isDigitChar_ne hd
        rw [heq, List.cons_append]
        simp only [parseJV]
        rw [if_neg e1, if_neg e2, if_neg e3, if_neg e4, if_neg e5, if_neg e6, if_neg e7,
          if_pos hd, ← List.cons_append, ← heq, parseNatNum_printNatCh n.toNat rest hrest]
        have hm : ((n.toNat : Nat) : Int) = n := by omega
        simp [hm]
  | str s =>
    intro fuel rest hf hrest
    cases fuel with
    | zero => exact absurd hf (by simp [sizeJV])
    | succ f =>
      obtain ⟨sd⟩ := s
      have hlen : sd.length + 1 ≤ (escapeString sd ++ '"' :: rest).length + 1 := by
        have := escapeString_length sd
        simp only [List.length_append, List.length_cons]
        omega
      have hbody := parseStringBody_escapeString sd _ rest hlen
      simp only [List.length_append, List.length_cons] at hbody
      simp only [printJV, printString, List.cons_append, List.append_assoc,
        List.singleton_append]
      simp [parseJV]
      exact ⟨sd, hbody, rfl⟩
  | arr es =>
    cases es with
    | nil =>
      intro fuel rest hf _
      cases fuel with
      | zero => exact absurd hf (by simp [sizeJV, sizeArr])
      | succ f => simp [printJV, parseJV]
    | cons v t =>
      intro fuel rest hf hrest
      cases fuel with
      | zero =>
        exact absurd hf (by simp [sizeJV, sizeArr])
      | succ f =>
        obtain ⟨c, tl, heq, hc1, _⟩ := printJV_head v
        have hbound : sizeJV v + sizeArr t + 1 ≤ f := by
          simp only [sizeJV, sizeArr] at hf
          omega
        have harr := parseArrItems_print v t f rest hbound
        rw [heq, List.cons_append] at harr
        simp only [printJV, List.cons_append, List.append_assoc, List.singleton_append]
        rw [heq, List.cons_append]
        simp only [parseJV]
        simp [hc1, harr]
  | obj fs =>
    cases fs with
    | nil =>
      intro fuel rest hf _
      cases fuel with
      | zero => exact absurd hf (by simp [sizeJV, sizeObj])
      | succ f => simp [printJV, parseJV]
    | cons k v t =>
      intro fuel rest hf hrest
      cases fuel with
      | zero =>
        exact absurd hf (by simp [sizeJV, sizeObj])
      | succ f =>
        have hbound : sizeJV v + sizeObj t + 1 ≤ f := by
          simp only [sizeJV, sizeObj] at hf
          omega
        have hobj := parseObjItems_print k v t f rest hbound
        simp only [printString, List.cons_append, List.append_assoc,
          List.singleton_append, List.nil_append] at hobj
        simp only [printJV, printString, List.cons_append, List.append_assoc,
          List.singleton_append, List.nil_append]
        simp only [parseJV]
        simp [hobj]
termination_by sizeOf v
theorem parseArrItems_print (v : JValue) (t : JArr) : ∀ (fuel : Nat) (rest : List Char),
    sizeJV v + sizeArr t + 1 ≤ fuel →
    parseArrItems fuel (printJV v ++ (printArrRest t ++ ']' :: rest)) =
      some (.cons v t, rest) := by
  intro fuel rest hf
  cases fuel with
  | zero => exact absurd hf (by have := sizeJV_pos v; omega)
  | succ f =>
    have hv := parseJV_print v f (printArrRest t ++ ']' :: rest)
      (by have := sizeJV_pos v; omega) (noDigitHead_printArrRest t rest)
    simp only [parseArrItems]
    rw [hv]
    cases t with
    | nil => simp [printArrRest]
    | cons w t2 =>
      have hrec := parseArrItems_print w t2 f rest (by
        simp only [sizeArr] at hf
        have := sizeJV_pos v
        omega)
      simp only [printArrRest, List.cons_append, List.append_assoc] at hrec ⊢
      simp [hrec]
termination_by 1 + sizeOf v + sizeOf t
theorem parseObjItems_print (k : String) (v : JValue) (t : JObj) :
    ∀ (fuel : Nat) (rest : List Char),
    sizeJV v + sizeObj t + 1 ≤ fuel →
    parseObjItems fuel
        (printString k ++ ':' :: printJV v ++ (printObjRest t ++ '}' :: rest)) =
      some (.cons k v t, rest) := by
  intro fuel rest hf
  cases fuel with
  | zero => exact absurd hf (by have := sizeJV_pos v; omega)
  | succ f =>
    obtain ⟨kd⟩ := k
    have hlen : kd.length + 1 ≤
        (escapeString kd ++ '"' :: (':' :: printJV v ++ (printObjRest t ++ '}' :: rest))).length + 1 := by
      have := escapeString_length kd
      simp only [List.length_append, List.length_cons]
      omega
    have hkey := parseStringBody_escapeString kd _
      (':' :: printJV v ++ (printObjRest t ++ '}' :: rest)) hlen
    have hv := parseJV_print v f (printObjRest t ++ '}' :: rest)
      (by have := sizeJV_pos v; omega) (noDigitHead_printObjRest t rest)
    simp only [List.length_append, List.length_cons, List.cons_append,
      List.append_assoc, List.singleton_append, List.nil_append] at hkey
    simp only [printString, List.cons_append, List.append_assoc,
      List.singleton_append, List.nil_append]
    simp only [parseObjItems]
    simp only [List.length_append, List.length_cons, List.nil_append]
    rw [hkey]
    simp only []
    rw [hv]
    cases t with
    | nil => simp [printObjRest]
    | cons k2 v2 t2 =>
      have hrec := parseObjItems_print k2 v2 t2 f rest (by
        simp only [sizeObj] at hf
        have := sizeJV_pos v
        omega)
      simp only [printString, printObjRest, List.cons_append, List.append_assoc,
        List.singleton_append, List.nil_append] at hrec ⊢
      simp [hrec]
termination_by 1 + sizeOf v + sizeOf t
end

theorem printIntCh_ne_nil (n : Int) : printIntCh n ≠ [] := by
  unfold printIntCh
  by_cases hn : n < 0
  · simp [hn]
  · simp [hn, printNatCh_ne_nil]

mutual
theorem sizeJV_le_printLen (v : JValue) : sizeJV v ≤ (printJV v).length := by
  cases v with
  | null => simp [sizeJV, printJV, nullChars]
  | bool b => cases b <;> simp [sizeJV, printJV, trueChars, falseChars]
  | num n =>
    have h : 1 ≤ (printIntCh n).length :=
      List.length_pos.mpr (printIntCh_ne_nil n)
    simpa [sizeJV, printJV] using h
  | str s => simp [sizeJV, printJV, printString]
  | arr es =>
    cases es with
    | nil => simp [sizeJV, sizeArr, printJV]
    | cons v t =>
      have h1 := sizeJV_le_printLen v
      have h2 := sizeArr_le_printLen t
      simp only [sizeJV, sizeArr, printJV, List.length_cons, List.length_append]
      omega
  | obj fs =>
    cases fs with
    | nil => simp [sizeJV, sizeObj, printJV]
    | cons k v t =>
      have h1 := sizeJV_le_printLen v
      have h2 := sizeObj_le_printLen t
      simp only [sizeJV, sizeObj, printJV, List.length_cons, List.length_append]
      omega
termination_by sizeOf v
theorem sizeArr_le_printLen (t : JArr) : sizeArr t ≤ (printArrRest t).length := by
  cases t with
  | nil => simp [sizeArr, printArrRest]
  | cons v t2 =>
    have h1 := sizeJV_le_printLen v
    have h2 := sizeArr_le_printLen t2
    simp only [sizeArr, printArrRest, List.length_cons, List.length_append]
    omega
termination_by 1 + sizeOf t
theorem sizeObj_le_printLen (t : JObj) : sizeObj t ≤ (printObjRest t).length := by
  cases t with
  | nil => simp [sizeObj, printObjRest]
  | cons k v t2 =>
    have h1 := sizeJV_le_printLen v
    have h2 := sizeObj_le_printLen t2
    simp only [sizeObj, printObjRest, printString, List.length_cons, List.length_append]
    omega
termination_by 1 + sizeOf t
end

/-- Top-level round trip: parsing the printed text of any JSON value
gives back exactly that value. -/
theorem jsonParse_jsonText (v : JValue) : jsonParse (jsonText v) = some v := by
  unfold jsonParse jsonText
  have h := parseJV_print v ((printJV v).length + 1) []
    (le_trans (sizeJV_le_printLen v) (Nat.le_succ _)) rfl
  rw [List.append_nil] at h
  simp [h]

/-! ## The wire codec of conducto.js

`utils.serialize` and `utils.parse` (conducto.js lines 958-983) wrap the
host JSON codec: they return error VALUES instead of throwing. -/

/-- A JavaScript value as seen by the send path: either a
JSON-representable value, or an object the host `JSON.stringify` cannot
serialize (e.g. one containing a reference cycle), on which stringify
throws. -/
inductive JSVal : Type where
  | plain (v : JValue) : JSVal
  | cyclicObj : JSVal

/-- Error values returned (never thrown) by the embedded codec. -/
inductive CodecErr : Type where
  | typeError : CodecErr
  | parseError : CodecErr
  | stringifyError : CodecErr

/-- Arrays and objects have JS `typeof === 'object'` and are not `null`. -/
def JValue.isObj : JValue → Bool
  | .arr _ => true
  | .obj _ => true
  | _ => false

/-- `utils.serialize`: a `TypeError` value for non-objects
(`typeof data !== 'object' || data === null`), otherwise
`JSON.stringify(data)`, catching any exception and returning it as a
value. -/
def serialize : JSVal → Except CodecErr String
  | .cyclicObj => .error .stringifyError
  | .plain v => if v.isObj then .ok (jsonText v) else .error .typeError

/-- Input to `utils.parse`: a string frame, or any non-string datum. -/
inductive JSData : Type where
  | str (s : String) : JSData
  | nonString : JSData

/-- `utils.parse`: a `TypeError` value for non-strings, otherwise
`JSON.parse(data)`, catching any exception and returning it as a
value. -/
def parse : JSData → Except CodecErr JValue
  | .nonString => .error .typeError
  | .str s =>
    match jsonParse s with
    | some v => .ok v
    | none => .error .parseError

/-! ## Messages and the Connection protocol core -/

/-- A decoded protocol message (or outbound message argument) as a record
of the fields `conducto.js` inspects; `none` models an absent field, and
`extra` holds any other fields present on the object. -/
structure Message where
  method : Option String := none
  payload : Option JSVal := none
  id : Option String := none
  error : Option JSVal := none
  result : Option JSVal := none
  extra : List (String × JSVal) := []

/-- The completion handler stored in the Correlation Table for one
`request` call: whether the call supplied a callback, whether a Promise
primitive exists (so `resolve`/`reject` were captured), and a ghost tag
identifying the `request` invocation that created the closure. -/
structure RHandler where
  hasCallback : Bool
  hasPromise : Bool
  tag : Nat

/-- An Action Handler registered through `define`: `run payload` models
`bind.call(this, o)` — the first component is whether the user handler
returned exactly `false`, the second is `some (err, res)` when the
handler invoked `o.callback(err, res)` during the call, else `none`. -/
structure ActionSpec where
  run : Option JSVal → Bool × Option (Option JSVal × Option JSVal)

/-- Observable effects of a Connection operation, in program order. -/
inductive Eff : Type where
  | emitEvent (name : String) (payload : Option JSVal)
  | transportSend (text : String)
  | emitSend (obj : Message)
  | cbCall (tag : Nat) (error : Option JSVal) (result : Option JSVal)
  | promiseResolve (tag : Nat) (result : Option JSVal)
  | promiseReject (tag : Nat) (error : Option JSVal)
  | transportClose
  | emitClose

/-- What a send-path operation returns to its caller. -/
inductive SendRet : Type where
  | undef : SendRet
  | err (e : CodecErr) : SendRet

/-- Connection state (constructor at conducto.js lines 1058-1064),
together with the injected transport's readiness (`readyState` is the
transport's; `1` means open). -/
structure Conn where
  actions : List (String × ActionSpec) := []
  ignoreEvents : List String := []
  responseHandlers : List (String × RHandler) := []
  lastId : Nat := 0
  hasTransport : Bool := true
  readyState : Nat := 1

/-- JS object property write: overwrite in place when the key exists,
else append (insertion order preserved). -/
def alistSet (l : List (String × RHandler)) (k : String) (v : RHandler) :
    List (String × RHandler) :=
  if l.any (fun p => p.1 == k) then l.map (fun p => if p.1 == k then (k, v) else p)
  else l ++ [(k, v)]

def alistGet (l : List (String × RHandler)) (k : String) : Option RHandler :=
  (l.find? (fun p => p.1 == k)).map (fun p => p.2)

def alistDel (l : List (String × RHandler)) (k : String) :
    List (String × RHandler) :=
  l.filter (fun p => !(p.1 == k))

def actionsGet (l : List (String × ActionSpec)) (k : String) : Option ActionSpec :=
  (l.find? (fun p => p.1 == k)).map (fun p => p.2)

/-- JavaScript truthiness of a JSON value. -/
def jvTruthy : JValue → Bool
  | .null => false
  | .bool b => b
  | .num n => !(n == 0)
  | .str s => !(s == "")
  | .arr _ => true
  | .obj _ => true

/-- Truthiness of a field value; an absent field (`undefined`) is falsy. -/
def jsTruthy : Option JSVal → Bool
  | none => false
  | some .cyclicObj => true
  | some (.plain v) => jvTruthy v

/-- JS property key for `responseHandlers[response.id]`: an `undefined`
id indexes as the string "undefined". -/
def idKey : Option String → String
  | some s => s
  | none => "undefined"

/-- Truthiness of `message.method` (absent or empty string is falsy). -/
def methodTruthy (m : Message) : Bool :=
  match m.method with
  | some s => !(s == "")
  | none => false

/-- The completion closure registered by `request`
(conducto.js lines 1211-1218): `args.callback(err, res)` when a
callback was given; then `reject(err)` when `err` is truthy and a
Promise was created, else `resolve(res)` when a Promise was created. -/
def runHandler (h : RHandler) (err res : Option JSVal) : List Eff :=
  (if h.hasCallback then [.cbCall h.tag err res] else []) ++
  (if jsTruthy err && h.hasPromise then [.promiseReject h.tag err]
   else if h.hasPromise then [.promiseResolve h.tag res] else [])

/-- `onResponse` (conducto.js lines 1174-1180): look up the handler for
`response.id`; when found, call it with `(error, result)` and delete
the entry; otherwise do nothing. -/
def onResponse (c : Conn) (m : Message) : Conn × List Eff :=
  match alistGet c.responseHandlers (idKey m.id) with
  | some h =>
    ({ c with responseHandlers := alistDel c.responseHandlers (idKey m.id) },
      runHandler h m.error m.result)
  | none => (c, [])

/-- `onMessage` (conducto.js lines 1102-1107): a message with a truthy
`method` not on the ignore list is emitted as an event under that method
name with its payload; a message without a truthy `method` is routed as
a Response; an ignored truthy method does nothing. -/
def onMessage (c : Conn) (m : Message) : Conn × List Eff :=
  if methodTruthy m then
    if (m.method.getD "") ∈ c.ignoreEvents then (c, [])
    else (c, [.emitEvent (m.method.getD "") m.payload])
  else onResponse c m

/-- The whitelisted wire object `obj` built by `sendMessage`
(conducto.js lines 1146-1164), as a `Message` record: a message with
`method` keeps at most `method`/`payload`/`id`; one without keeps at
most `result`/`error`/`id`.  Nothing else is copied. -/
def wireMsg (m : Message) : Message :=
  if m.method.isSome then { method := m.method, payload := m.payload, id := m.id }
  else { result := m.result, error := m.error, id := m.id }

/-- The same wire object as an ordered field list, for serialization
(fields are added in the source's insertion order). -/
def wireFields (m : Message) : List (String × JSVal) :=
  if m.method.isSome then
    [("method", JSVal.plain (.str (m.method.getD "")))] ++
    (match m.payload with | some p => [("payload", p)] | none => []) ++
    (match m.id with | some i => [("id", JSVal.plain (.str i))] | none => [])
  else
    (match m.result with | some r => [("result", r)] | none => []) ++
    (match m.error with | some e => [("error", e)] | none => []) ++
    (match m.id with | some i => [("id", JSVal.plain (.str i))] | none => [])

/-- Collect the field list into a JSON object; `none` when some field
value is one `JSON.stringify` throws on. -/
def fieldsToJObj : List (String × JSVal) → Option JObj
  | [] => some .nil
  | (k, .plain v) :: rest => (fieldsToJObj rest).map (fun t => .cons k v t)
  | (_, .cyclicObj) :: _ => none

/-- `utils.serialize` applied to the wire object (it always passes the
object type guard; `JSON.stringify` fails iff some field value is
unserializable). -/
def serializeWire (m : Message) : Except CodecErr String :=
  match fieldsToJObj (wireFields m) with
  | some fs => .ok (jsonText (.obj fs))
  | none => .error .stringifyError

/-- `sendMessage` (conducto.js lines 1140-1173): return `undefined` when
there is no transport or it is not open; build the whitelisted wire
object; return the serialization error as a value when serialize fails
(no transport send, no `send` event); otherwise send the text and then
emit `send`. -/
def sendMessage (c : Conn) (m : Message) : Conn × List Eff × SendRet :=
  if !c.hasTransport then (c, [], .undef)
  else if !(c.readyState == 1) then (c, [], .undef)
  else
    match serializeWire m with
    | .error e => (c, [], .err e)
    | .ok s => (c, [.transportSend s, .emitSend (wireMsg m)], .undef)

/-- `sendResponse` (conducto.js lines 1181-1185): delete `method` and
`payload`, then `sendMessage`, propagating its return value. -/
def sendResponse (c : Conn) (m : Message) : Conn × List Eff × SendRet :=
  sendMessage c { m with method := none, payload := none }

/-- `sendNotification` (conducto.js lines 1186-1189): delete `id`, then
`sendMessage`, propagating its return value. -/
def sendNotification (c : Conn) (m : Message) : Conn × List Eff × SendRet :=
  sendMessage c { m with id := none }

/-- `(this.lastId++).toString()`. -/
def natToString (n : Nat) : String := String.mk (printNatCh n)

/-- `sendRequest` (conducto.js lines 1190-1195): when `m.id` is not a
string, assign the next generated id; then `sendMessage`.  The mutated
message is returned too, since `request` reads `args.id` afterwards. -/
def sendRequest (c : Conn) (m : Message) : Conn × Message × List Eff × SendRet :=
  match m.id with
  | some _ =>
    let r := sendMessage c m
    (r.1, m, r.2.1, r.2.2)
  | none =>
    let m2 := { m with id := some (natToString c.lastId) }
    let c2 := { c with lastId := c.lastId + 1 }
    let r := sendMessage c2 m2
    (r.1, m2, r.2.1, r.2.2)

/-- `notify` (conducto.js lines 1196-1199): build `{method, payload}`
from the arguments and `sendNotification`; its return value is
dropped. -/
def notify (c : Conn) (method : String) (payload : Option JSVal) : Conn × List Eff :=
  let r := sendNotification c { method := some method, payload := payload }
  (r.1, r.2.1)

/-- `request` (conducto.js lines 1200-1226): send the request
(allocating an id when none was supplied); then — unless no Promise
primitive exists and a callback was given, in which case it returns at
once — register the completion handler under the request's id.  `tag`
is a ghost identifier naming this call's callback/promise. -/
def request (c : Conn) (tag : Nat) (method : String) (payload : Option JSVal)
    (explicitId : Option String) (hasCallback hasPromise : Bool) :
    Conn × List Eff :=
  let r := sendRequest c { method := some method, payload := payload, id := explicitId }
  let c1 := r.1
  let m1 := r.2.1
  let effs := r.2.2.1
  if !hasPromise && hasCallback then (c1, effs)
  else
    ({ c1 with responseHandlers :=
        alistSet c1.responseHandlers (idKey m1.id) ⟨hasCallback, hasPromise, tag⟩ },
      effs)

/-- `respond` (conducto.js lines 1227-1241): build `{id}`; attach
`error` when it is neither `null` nor `undefined`, else attach `result`
when it is not `undefined`; then `sendResponse`. -/
def respond (c : Conn) (id : String) (error result : Option JSVal) :
    Conn × List Eff × SendRet :=
  let m : Message := { id := some id }
  let m2 : Message :=
    match error with
    | some (.plain .null) =>
      match result with
      | some r => { m with result := some r }
      | none => m
    | some e => { m with error := some e }
    | none =>
      match result with
      | some r => { m with result := some r }
      | none => m
  sendResponse c m2

/-- The completion closure `fn` built inside `define`
(conducto.js lines 1291-1300), invoked by the user handler as
`o.callback(err, res)`: on truthy `err`, `cb(err)` then `reject(err)`;
otherwise `cb(null, res)` then `resolve(res)`. -/
def defineCompletion (tag : Nat) (hasCallback hasPromise : Bool)
    (err res : Option JSVal) : List Eff :=
  if jsTruthy err then
    (if hasCallback then [.cbCall tag err none] else []) ++
    (if hasPromise then [.promiseReject tag err] else [])
  else
    (if hasCallback then [.cbCall tag (some (.plain .null)) res] else []) ++
    (if hasPromise then [.promiseResolve tag res] else [])

/-- `exec` (conducto.js lines 1108-1117): when an action is registered
for `method`, invoke it; if its result `h` is anything other than the
exact value `false` — and the `define` wrapper returns `false` exactly
when the user handler did — `exec` returns `h`, suppressing the network
call; otherwise it falls through to `request` with the original
arguments. -/
def exec (c : Conn) (tag : Nat) (method : String) (payload : Option JSVal)
    (hasCallback hasPromise : Bool) : Conn × List Eff :=
  match actionsGet c.actions method with
  | some act =>
    let r := act.run payload
    let compEffs :=
      match r.2 with
      | some (err, res) => defineCompletion tag hasCallback hasPromise err res
      | none => []
    if r.1 then
      let q := request c tag method payload none hasCallback hasPromise
      (q.1, compEffs ++ q.2)
    else (c, compEffs)
  | none => request c tag method payload none hasCallback hasPromise

/-- `define` (conducto.js lines 1254-1314): register the wrapped action
under the method name. -/
def define (c : Conn) (method : String) (act : ActionSpec) : Conn :=
  { c with actions :=
      if c.actions.any (fun p => p.1 == method) then
        c.actions.map (fun p => if p.1 == method then (method, act) else p)
      else c.actions ++ [(method, act)] }

/-- `close` (conducto.js lines 1079-1084): close the transport when one
is present, then `onClose`, which emits the `close` event.  The
Correlation Table is not touched and no pending handler is invoked. -/
def close (c : Conn) : Conn × List Eff :=
  (c, (if c.hasTransport then [.transportClose] else []) ++ [.emitClose])

/-! ## Client keepalive loop (conducto.js lines 1374-1466)

`open` wires `this.on('message', this.pingpong)` when `keepalive` is
configured truthy and removes the listener on `close`.  `pingpong`
clears and re-arms the idle timer (`this.pingTimeout`, duration
`keepalive`) on every inbound message; when it fires, a pong timer of
duration `timeout` is started and `send('ping', cb)` issues a ping
request whose response callback runs `clearTimeout(pong)`; when a pong
timer fires, `that.close()` runs. -/

/-- Timer state of the keepalive loop while the connection is open:
`idleExpiry` is the absolute expiry of the pending `pingTimeout` (armed
by `pingpong` on every inbound message), `pongs` the pending pong
timers as `(ping id, absolute expiry)`, `nextPingId` the connection's
`lastId` counter (the pings being its requests), `pingsSent` the log of
`(time, id)` liveness probes, and `closedAt` the time a pong timer
called `close()`, when one did. -/
structure KAState where
  keepalive : Nat
  timeout : Nat
  idleExpiry : Option Nat := none
  pongs : List (String × Nat) := []
  nextPingId : Nat := 0
  pingsSent : List (Nat × String) := []
  closedAt : Option Nat := none

/-- `pingpong` at time `t`: clear any pending idle timer and arm a new
one expiring at `t + keepalive`. -/
def resetIdle (s : KAState) (t : Nat) : KAState :=
  { s with idleExpiry := some (t + s.keepalive) }

/-- The idle timer firing at its expiry `e`: start a pong timer of
duration `timeout` and send a `ping` request (id from the connection's
id counter); the idle timer is spent until the next message re-arms
it. -/
def idleFire (s : KAState) (e : Nat) : KAState :=
  { s with
    idleExpiry := none
    pongs := s.pongs ++ [(natToString s.nextPingId, e + s.timeout)]
    nextPingId := s.nextPingId + 1
    pingsSent := s.pingsSent ++ [(e, natToString s.nextPingId)] }

/-- A pong timer firing at its expiry `e`: `that.close()`. -/
def pongFire (s : KAState) (e : Nat) : KAState :=
  { s with closedAt := some e }

/-- Smallest pong-timer expiry that is due by time `t`. -/
def earliestPongLE (l : List (String × Nat)) (t : Nat) : Option Nat :=
  l.foldl (fun acc p =>
    if p.2 ≤ t then
      match acc with
      | none => some p.2
      | some m => some (min m p.2)
    else acc) none

/-- Fire, in chronological order, every timer due by time `t`.  A pong
firing closes the connection, which stops the loop (the `message`
listener is removed on `close`).  At most one idle firing can happen
between two messages, so fuel `2` always suffices. -/
def fireTimersUntil : Nat → KAState → Nat → KAState
  | 0, s, _ => s
  | fuel + 1, s, t =>
    if s.closedAt.isSome then s
    else
      let ieDue : Option Nat :=
        match s.idleExpiry with
        | some ie => if ie ≤ t then some ie else none
        | none => none
      match ieDue, earliestPongLE s.pongs t with
      | none, none => s
      | some ie, none => fireTimersUntil fuel (idleFire s ie) t
      | none, some pe => pongFire s pe
      | some ie, some pe =>
        if ie ≤ pe then fireTimersUntil fuel (idleFire s ie) t
        else pongFire s pe

/-- One inbound message at time `t`: when it answers an outstanding
ping, the response handler runs `clearTimeout(pong)` first (`onMessage`
runs before the `message` event in `onData`); then `pingpong` re-arms
the idle timer.  After `close` the listener is gone, so a closed state
ignores the message. -/
def handleMsg (s : KAState) (t : Nat) (replyTo : Option String) : KAState :=
  if s.closedAt.isSome then s
  else
    let s1 :=
      match replyTo with
      | some pid => { s with pongs := s.pongs.filter (fun p => !(p.1 == pid)) }
      | none => s
    resetIdle s1 t

/-- Run the keepalive loop over a chronological list of inbound message
events `(time, replyTo)`, then fire any timers due by `horizon`. -/
def runKA (s : KAState) : List (Nat × Option String) → Nat → KAState
  | [], horizon => fireTimersUntil 2 s horizon
  | (t, r) :: more, horizon =>
    runKA (handleMsg (fireTimersUntil 2 s t) t r) more horizon

/-- keepalive=100, timeout=50, as in the spec's testable properties. -/
def ka0 : KAState := { keepalive := 100, timeout := 50 }

/-- Last traffic at t=0 and a peer that never replies. -/
def kaFailure : KAState := runKA ka0 [(0, none)] 1000

/-- A peer that answers every ping 10ms later, over 5 idle cycles. -/
def kaHappy : KAState :=
  runKA ka0 [(0, none), (110, some "0"), (220, some "1"), (330, some "2"),
    (440, some "3"), (550, some "4")] 600

/-- The ping at t=100 is answered at t=140, before the pong timer at
t=150: the close is cancelled and the connection is still open at
t=260. -/
def kaCancelled : KAState := runKA ka0 [(0, none), (140, some "0")] 260

/-! ## Supporting lemmas about the correlation table -/

theorem alistGet_alistDel (l : List (String × RHandler)) (k : String) :
    alistGet (alistDel l k) k = none := by
  induction l with
  | nil => rfl
  | cons p t ih =>
    by_cases h : p.1 == k
    · simpa [alistDel, List.filter_cons, h] using ih
    · simp only [alistDel, List.filter_cons, h, Bool.not_false, if_true]
      simp only [alistGet, List.find?_cons, h]
      simp only [alistDel, alistGet] at ih
      exact ih

/-! ## Claim theorems -/

/-- C7: while the connection is open with keepalive configured, every
inbound message re-arms the idle timer to fire `keepalive` later; when
the idle timer fires, a ping request is sent and a pong timer of
duration `timeout` starts; with keepalive=100 and timeout=50, a peer
that never replies to the ping sent at t=100 gets the connection closed
at t=150 (last traffic at t=0); a reply to the ping arriving before the
pong timer cancels the close (still open at t=260); and a peer that
answers every ping keeps the connection open through 5 idle cycles. -/
theorem C7_keepalive :
    (∀ (s : KAState) (t : Nat) (r : Option String), s.closedAt = none →
      (handleMsg s t r).idleExpiry = some (t + s.keepalive)) ∧
    (∀ (s : KAState) (e : Nat),
      (idleFire s e).pongs = s.pongs ++ [(natToString s.nextPingId, e + s.timeout)] ∧
      (idleFire s e).pingsSent = s.pingsSent ++ [(e, natToString s.nextPingId)]) ∧
    kaFailure.closedAt = some 150 ∧
    (kaHappy.closedAt = none ∧ kaHappy.pingsSent.length = 5) ∧
    kaCancelled.closedAt = none := by
  refine ⟨?_, ?_, rfl, ⟨rfl, rfl⟩, rfl⟩
  · intro s t r h
    cases r <;> simp [handleMsg, h, resetIdle]
  · intro s e
    exact ⟨rfl, rfl⟩

/-- Witness for C7 at a concrete state and time. -/
theorem C7_keepalive_witness : (handleMsg ka0 7 none).idleExpiry = some 107 :=
  C7_keepalive.1 ka0 7 none rfl

/-- The C2 failing input: a connection with one pending request. -/
def c2conn : Conn := { responseHandlers := [("0", ⟨true, true, 0⟩)] }

/-- C2 (the code evaluated at the failing input): `close()` on a
connection with a pending request closes the transport and emits
`close`, but leaves the Correlation Table entry in place and invokes no
pending completion handler — the pending request hangs instead of being
failed with a "connection closed" error as the spec requires. -/
theorem C2_close_keeps_pending :
    close c2conn = (c2conn, [.transportClose, .emitClose]) ∧
    (close c2conn).1.responseHandlers = [("0", ⟨true, true, 0⟩)] :=
  ⟨rfl, rfl⟩

/-- The C5 failing input: a fresh open connection in an environment
without a Promise primitive. -/
def c5conn : Conn := {}

/-- C5 (the code evaluated at the failing input): with no Promise
primitive available and a callback supplied, `request` returns before
`addResponseHandler` (the guard `!utils.Promise && args.callback` is
inverted), so no PendingRequest is registered and the matching Response
later finds no entry: the callback is never invoked. -/
theorem C5_no_promise_callback_dropped :
    (request c5conn 0 "m" none none true false).1.responseHandlers = [] ∧
    onMessage (request c5conn 0 "m" none none true false).1
        { id := some "0", result := some (.plain (.num 1)) } =
      ((request c5conn 0 "m" none none true false).1, []) :=
  ⟨rfl, rfl⟩

/-- C3: an inbound message without a `method` field is routed purely as
a Response: when its id has a pending entry, the stored handler is
invoked with `(error, result)` and the entry removed; delivering the
same Response again is a pure no-op; and a Response whose id has no
pending entry leaves the state unchanged and produces no effect at
all. -/
theorem C3_response_routing :
    ∀ (c : Conn) (m : Message), m.method = none →
      (∀ h, alistGet c.responseHandlers (idKey m.id) = some h →
        onMessage c m =
          ({ c with responseHandlers := alistDel c.responseHandlers (idKey m.id) },
            runHandler h m.error m.result) ∧
        onMessage (onMessage c m).1 m = ((onMessage c m).1, [])) ∧
      (alistGet c.responseHandlers (idKey m.id) = none →
        onMessage c m = (c, [])) := by
  intro c m hm
  have hmt : methodTruthy m = false := by simp [methodTruthy, hm]
  constructor
  · intro h hget
    have h1 : onMessage c m =
        ({ c with responseHandlers := alistDel c.responseHandlers (idKey m.id) },
          runHandler h m.error m.result) := by
      simp [onMessage, hmt, onResponse, hget]
    refine ⟨h1, ?_⟩
    rw [h1]
    simp [onMessage, hmt, onResponse, alistGet_alistDel]
  · intro hget
    simp [onMessage, hmt, onResponse, hget]

/-- Witness for C3 at a concrete connection and Response. -/
def c3conn : Conn := { responseHandlers := [("5", ⟨true, true, 0⟩)] }

def c3resp : Message := { id := some "5", result := some (.plain (.num 42)) }

theorem C3_response_routing_witness :
    (onMessage c3conn c3resp =
      ({ c3conn with responseHandlers := [] },
        [.cbCall 0 none (some (.plain (.num 42))),
         .promiseResolve 0 (some (.plain (.num 42)))]) ∧
      onMessage (onMessage c3conn c3resp).1 c3resp = ((onMessage c3conn c3resp).1, [])) ∧
    onMessage c3conn { id := some "9" } = (c3conn, []) := by
  have h1 := (C3_response_routing c3conn c3resp rfl).1 ⟨true, true, 0⟩ rfl
  have h2 := (C3_response_routing c3conn { id := some "9" } rfl).2 rfl
  exact ⟨⟨h1.1.trans (by rfl), h1.2⟩, h2⟩

/-- The C6 counterexample input: a fresh connection and a message
carrying both `method` and `result`. -/
def c6conn : Conn := {}

def c6msg : Message := { method := some "foo", result := some (.plain (.num 7)) }

/-- C6 counterexample: a message with both `method` and `result` is NOT
rejected — `onMessage` dispatches it as a request/notification, emitting
the `foo` event, contradicting "neither dispatched as a
request/notification nor routed as a Response". -/
theorem C6_cex : onMessage c6conn c6msg = (c6conn, [.emitEvent "foo" none]) := rfl

/-- C6 (amended): a decoded inbound message with both a (truthy)
`method` and a `result`/`error` field is treated as a
request/notification: its method event is emitted with its payload
(unless the method is on the ignore list, in which case nothing at all
happens); it is never routed as a Response, the connection state is
unchanged, and no connection-fatal error or close results. -/
theorem C6_method_takes_precedence :
    ∀ (c : Conn) (m : Message) (s : String), m.method = some s → s ≠ "" →
      (m.result.isSome || m.error.isSome) = true →
      (s ∉ c.ignoreEvents → onMessage c m = (c, [.emitEvent s m.payload])) ∧
      (s ∈ c.ignoreEvents → onMessage c m = (c, [])) := by
  intro c m s hm hs _
  have hmt : methodTruthy m = true := by simp [methodTruthy, hm, hs]
  constructor
  · intro hnotin
    simp [onMessage, hmt, hm, hnotin]
  · intro hin
    simp [onMessage, hmt, hm, hin]

/-- Witness for the amended C6 at concrete inputs, including an
ignore-listed method. -/
theorem C6_method_takes_precedence_witness :
    onMessage c6conn c6msg = (c6conn, [.emitEvent "foo" none]) ∧
    onMessage { c6conn with ignoreEvents := ["foo"] } c6msg =
      ({ c6conn with ignoreEvents := ["foo"] }, []) := by
  have h1 := (C6_method_takes_precedence c6conn c6msg "foo" rfl (by decide) rfl).1
    (by simp [c6conn])
  have h2 := (C6_method_takes_precedence { c6conn with ignoreEvents := ["foo"] }
    c6msg "foo" rfl (by decide) rfl).2 (by simp)
  exact ⟨h1, h2⟩

/-- C8: for every representable message (a serializable object, i.e. a
JSON array or object), `decode(encode(m))` succeeds and reproduces the
value exactly; `encode` returns an error value — it does not throw — on
non-objects and on unserializable objects; and `decode` returns an
error value on malformed text and on non-strings. -/
theorem C8_codec_roundtrip :
    (∀ v : JValue, v.isObj = true →
      serialize (.plain v) = .ok (jsonText v) ∧
      parse (.str (jsonText v)) = .ok v) ∧
    serialize .cyclicObj = .error .stringifyError ∧
    (∀ v : JValue, v.isObj = false → serialize (.plain v) = .error .typeError) ∧
    parse (.str "[1,") = .error .parseError ∧
    parse .nonString = .error .typeError := by
  refine ⟨?_, rfl, ?_, rfl, rfl⟩
  · intro v hv
    refine ⟨by simp [serialize, hv], ?_⟩
    simp [parse, jsonParse_jsonText v]
  · intro v hv
    simp [serialize, hv]

/-- Witness for C8 at a concrete object and a concrete non-object. -/
theorem C8_codec_roundtrip_witness :
    serialize (.plain (.obj (.cons "a" (.num 1) .nil))) =
      .ok (jsonText (.obj (.cons "a" (.num 1) .nil))) ∧
    parse (.str (jsonText (.obj (.cons "a" (.num 1) .nil)))) =
      .ok (.obj (.cons "a" (.num 1) .nil)) ∧
    serialize (.plain (.num 3)) = .error .typeError :=
  ⟨(C8_codec_roundtrip.1 (.obj (.cons "a" (.num 1) .nil)) rfl).1,
    (C8_codec_roundtrip.1 (.obj (.cons "a" (.num 1) .nil)) rfl).2,
    C8_codec_roundtrip.2.2.1 (.num 3) rfl⟩

/-- C9: when serializing the outbound wire object fails, the failure is
returned as a value: `sendMessage` returns the error to its caller with
no transport send and no `send` event for that message, and each
wrapper of the send path (`sendResponse` for `respond`,
`sendNotification` for `notify`, `sendRequest` for `request`) returns
that same value to its own immediate caller; nothing is thrown — the
embedding is a total function. -/
theorem C9_serialize_failure :
    (∀ (c : Conn) (m : Message) (e : CodecErr),
      c.hasTransport = true → c.readyState = 1 →
      serializeWire m = .error e →
      sendMessage c m = (c, [], .err e)) ∧
    (∀ (c : Conn) (m : Message),
      sendResponse c m = sendMessage c { m with method := none, payload := none }) ∧
    (∀ (c : Conn) (m : Message),
      sendNotification c m = sendMessage c { m with id := none }) ∧
    (∀ (c : Conn) (m : Message) (s : String), m.id = some s →
      sendRequest c m =
        ((sendMessage c m).1, m, (sendMessage c m).2.1, (sendMessage c m).2.2)) := by
  refine ⟨?_, fun c m => rfl, fun c m => rfl, ?_⟩
  · intro c m e h1 h2 hser
    simp [sendMessage, h1, h2, hser]
  · intro c m s hid
    simp [sendRequest, hid]

/-- A message whose payload `JSON.stringify` throws on. -/
def c9msg : Message := { method := some "m", payload := some .cyclicObj }

/-- Witness for C9: the cyclic payload makes `sendMessage` return the
stringify error with no effects. -/
theorem C9_serialize_failure_witness :
    sendMessage ({} : Conn) c9msg = ({}, [], .err .stringifyError) :=
  C9_serialize_failure.1 {} c9msg .stringifyError rfl rfl rfl

/-- C10: every message placed on the wire is field-whitelisted by
`sendMessage`: with `method` present the wire object carries at most
`{method, payload, id}` and never `result`/`error`; without `method` it
carries at most `{result, error, id}` and never `method`/`payload`; all
other fields are stripped; the only objects `sendMessage` sends or
emits are whitelisted ones; and `sendResponse` deletes
`method`/`payload` while `sendNotification` deletes `id` before
sending. -/
theorem C10_wire_whitelist :
    (∀ m : Message, m.method.isSome = true →
      wireMsg m = { method := m.method, payload := m.payload, id := m.id } ∧
      (wireMsg m).result = none ∧ (wireMsg m).error = none ∧ (wireMsg m).extra = []) ∧
    (∀ m : Message, m.method = none →
      wireMsg m = { result := m.result, error := m.error, id := m.id } ∧
      (wireMsg m).method = none ∧ (wireMsg m).payload = none ∧ (wireMsg m).extra = []) ∧
    (∀ (c : Conn) (m : Message),
      (sendMessage c m).2.1 = [] ∨
      ∃ s, (sendMessage c m).2.1 = [.transportSend s, .emitSend (wireMsg m)]) ∧
    (∀ (c : Conn) (m : Message),
      sendResponse c m = sendMessage c { m with method := none, payload := none }) ∧
    (∀ (c : Conn) (m : Message),
      sendNotification c m = sendMessage c { m with id := none }) := by
  refine ⟨?_, ?_, ?_, fun c m => rfl, fun c m => rfl⟩
  · intro m hm
    refine ⟨by simp [wireMsg, hm], ?_, ?_, ?_⟩ <;> simp [wireMsg, hm]
  · intro m hm
    have hm2 : m.method.isSome = false := by simp [hm]
    refine ⟨by simp [wireMsg, hm2], ?_, ?_, ?_⟩ <;> simp [wireMsg, hm2]
  · intro c m
    cases h1 : c.hasTransport with
    | false => left; simp [sendMessage, h1]
    | true =>
      cases h2 : c.readyState == 1 with
      | false => left; simp [sendMessage, h1, h2]
      | true =>
        cases hser : serializeWire m with
        | error e => left; simp [sendMessage, h1, h2, hser]
        | ok s => right; exact ⟨s, by simp [sendMessage, h1, h2, hser]⟩

/-- A message carrying every field plus extras. -/
def c10msg : Message :=
  { method := some "m", payload := some (.plain (.num 1)), id := some "7",
    result := some (.plain (.num 2)), error := some (.plain (.num 3)),
    extra := [("x", .plain .null)] }

/-- Witness for C10: the wire form of a method-bearing message with
stray `result`/`error`/extra fields keeps only `method`/`payload`/`id`. -/
theorem C10_wire_whitelist_witness :
    wireMsg c10msg =
      { method := some "m", payload := some (.plain (.num 1)), id := some "7" } ∧
    (wireMsg c10msg).result = none ∧ (wireMsg c10msg).error = none ∧
    (wireMsg c10msg).extra = [] :=
  C10_wire_whitelist.1 c10msg rfl

/-- No transport send ever originates from the `define` completion
closure: it only invokes the callback and settles the promise. -/
theorem transportSend_not_mem_defineCompletion (tag : Nat) (hc hp : Bool)
    (err res : Option JSVal) (s : String) :
    Eff.transportSend s ∉ defineCompletion tag hc hp err res := by
  unfold defineCompletion
  split_ifs <;> simp

/-- A `define`d action whose user handler returns exactly `false`
(declining) without completing anything. -/
def c4declineAct : ActionSpec := ⟨fun _ => (true, none)⟩

def c4conn : Conn := define {} "m" c4declineAct

/-- C6-style counterexample for C4: an action handler returning `false`
— a false-like value, which per the claim signals "handled" and should
suppress the network request — in fact makes `exec` fall through to
`request`: a transport send occurs. -/
theorem C4_cex :
    (exec c4conn 0 "m" none false true).2 =
      [.transportSend (jsonText (.obj (.cons "method" (.str "m")
        (.cons "id" (.str "0") .nil)))),
       .emitSend { method := some "m", id := some "0" }] := rfl

/-- The "double" handler of the spec's testable property: completes
with `(null, payload * 2)` and returns `undefined` (not `false`). -/
def doubleAct : ActionSpec :=
  ⟨fun p => (false, some (some (.plain .null),
    match p with
    | some (.plain (.num n)) => some (.plain (.num (2 * n)))
    | _ => none))⟩

def c4doubleConn : Conn := define {} "double" doubleAct

/-- C4 (amended): when an Action Handler is registered for the method,
`exec` invokes it first, and the network request is suppressed exactly
when the value returned to `exec` is anything OTHER than the exact
value `false` (the `define` wrapper returns `false` exactly when the
user handler did; returning `false` means "decline", and `exec` falls
through to `request` with the original arguments).  The "double"
handler completing with `result = payload*2` makes
`exec("double", 21)` yield 42 via callback and future with zero
transport sends. -/
theorem C4_short_circuit :
    (∀ (c : Conn) (act : ActionSpec) (tag : Nat) (method : String)
      (p : Option JSVal) (hc hp : Bool),
      actionsGet c.actions method = some act →
      ((act.run p).1 = false →
        exec c tag method p hc hp =
          (c, match (act.run p).2 with
            | some er => defineCompletion tag hc hp er.1 er.2
            | none => []) ∧
        (∀ s, Eff.transportSend s ∉ (exec c tag method p hc hp).2)) ∧
      ((act.run p).1 = true →
        exec c tag method p hc hp =
          ((request c tag method p none hc hp).1,
            (match (act.run p).2 with
              | some er => defineCompletion tag hc hp er.1 er.2
              | none => []) ++ (request c tag method p none hc hp).2))) ∧
    exec c4doubleConn 5 "double" (some (.plain (.num 21))) true true =
      (c4doubleConn,
        [.cbCall 5 (some (.plain .null)) (some (.plain (.num 42))),
         .promiseResolve 5 (some (.plain (.num 42)))]) := by
  refine ⟨?_, rfl⟩
  intro c act tag method p hc hp hget
  constructor
  · intro hfalse
    constructor
    · simp [exec, hget, hfalse]
      cases hcomp : (act.run p).2 with
      | none => simp
      | some er =>
        obtain ⟨e1, e2⟩ := er
        simp
    · intro s
      simp only [exec, hget, hfalse]
      cases hcomp : (act.run p).2 with
      | none => simp [hcomp]
      | some er =>
        simp only [hcomp, Bool.false_eq_true, if_false]
        exact transportSend_not_mem_defineCompletion tag hc hp er.1 er.2 s
  · intro htrue
    simp [exec, hget, htrue]
    cases hcomp : (act.run p).2 with
    | none => simp
    | some er =>
      obtain ⟨e1, e2⟩ := er
      simp

/-- Witness for the amended C4: the declining handler falls through to
`request`. -/
theorem C4_short_circuit_witness :
    exec c4conn 1 "m" none false true =
      ((request c4conn 1 "m" none none false true).1,
        (request c4conn 1 "m" none none false true).2) := by
  have h := ((C4_short_circuit.1 c4conn c4declineAct 1 "m" none false true rfl).2) rfl
  exact h.trans (by rfl)

/-! ## Supporting lemmas for id allocation and correlation (C1) -/

theorem sendMessage_fst (c : Conn) (m : Message) : (sendMessage c m).1 = c := by
  unfold sendMessage
  cases h1 : c.hasTransport with
  | false => simp
  | true =>
    cases h2 : c.readyState == 1 with
    | false => simp
    | true => cases hser : serializeWire m <;> simp

theorem request_fst (c : Conn) (tag : Nat) (method : String) (p : Option JSVal)
    (hc : Bool) :
    (request c tag method p none hc true).1 =
      { c with
          lastId := c.lastId + 1,
          responseHandlers :=
            alistSet c.responseHandlers (natToString c.lastId) ⟨hc, true, tag⟩ } := by
  unfold request sendRequest
  simp [sendMessage_fst, idKey]

theorem natToString_inj {a b : Nat} (h : natToString a = natToString b) : a = b := by
  have hd : printNatCh a = printNatCh b := congrArg String.data h
  have ha : digitsToNatAux 0 (printNatCh a) = a :=
    digitsToNatAux_printNatAux (a + 1) a (by omega)
  have hb : digitsToNatAux 0 (printNatCh b) = b :=
    digitsToNatAux_printNatAux (b + 1) b (by omega)
  rw [← ha, ← hb, hd]

theorem alistSet_fresh (l : List (String × RHandler)) (k : String) (v : RHandler)
    (h : l.any (fun p => p.1 == k) = false) : alistSet l k v = l ++ [(k, v)] := by
  simp [alistSet, h]

theorem alistGet_append (l1 l2 : List (String × RHandler)) (k : String) :
    alistGet (l1 ++ l2) k =
      match alistGet l1 k with
      | some v => some v
      | none => alistGet l2 k := by
  induction l1 with
  | nil => simp [alistGet]
  | cons p t ih =>
    by_cases h : p.1 == k
    · simp [alistGet, List.find?_cons, h]
    · simp only [List.cons_append]
      simp only [alistGet, List.find?_cons, h, Bool.false_eq_true, if_false] at ih ⊢
      exact ih

/-- The correlation table built by `requestN`, as a plain map image. -/
def rangeHandlers (n : Nat) : List (String × RHandler) :=
  (List.range n).map (fun k => (natToString k, (⟨true, true, k⟩ : RHandler)))

theorem alistGet_rangeHandlers_none {n k : Nat} (hk : ¬ k < n) :
    alistGet (rangeHandlers n) (natToString k) = none := by
  unfold alistGet rangeHandlers
  rw [List.find?_eq_none.mpr]
  · rfl
  · intro p hp
    simp only [List.mem_map] at hp
    obtain ⟨j, hj, rfl⟩ := hp
    simp only [List.mem_range] at hj
    simp only [beq_iff_eq]
    intro heq
    exact absurd (natToString_inj heq) (by omega)

theorem alistGet_rangeHandlers {n k : Nat} (hk : k < n) :
    alistGet (rangeHandlers n) (natToString k) = some ⟨true, true, k⟩ := by
  induction n with
  | zero => omega
  | succ n ih =>
    have hsplit : rangeHandlers (n + 1) =
        rangeHandlers n ++ [(natToString n, ⟨true, true, n⟩)] := by
      unfold rangeHandlers
      rw [List.range_succ, List.map_append]
      rfl
    rw [hsplit, alistGet_append]
    by_cases hkn : k < n
    · rw [ih hkn]
    · have hk_eq : k = n := by omega
      subst hk_eq
      rw [alistGet_rangeHandlers_none (by omega)]
      simp [alistGet, List.find?_cons]

theorem rangeHandlers_fresh (n : Nat) :
    (rangeHandlers n).any (fun p => p.1 == natToString n) = false := by
  rw [List.any_eq_false]
  intro p hp
  simp only [rangeHandlers, List.mem_map] at hp
  obtain ⟨j, hj, rfl⟩ := hp
  simp only [List.mem_range] at hj
  simp only [beq_iff_eq]
  intro heq
  exact absurd (natToString_inj heq) (by omega)

/-- `N` consecutive `request()` calls without explicit ids, each with a
callback and with the Promise primitive available, ghost-tagged
`0..N-1`, on a fresh connection. -/
def requestN : Nat → Conn
  | 0 => {}
  | n + 1 => (request (requestN n) n "m" none none true true).1

theorem requestN_state (n : Nat) :
    (requestN n).lastId = n ∧ (requestN n).responseHandlers = rangeHandlers n := by
  induction n with
  | zero => exact ⟨rfl, rfl⟩
  | succ n ih =>
    have h := request_fst (requestN n) n "m" none true
    constructor
    · simp only [requestN, h]
      rw [ih.1]
    · simp only [requestN, h]
      rw [ih.1, ih.2, alistSet_fresh _ _ _ (rangeHandlers_fresh n)]
      unfold rangeHandlers
      rw [List.range_succ, List.map_append]
      rfl

/-- Deliver a list of decoded Responses in order, accumulating the
effects. -/
def deliver (c : Conn) : List Message → Conn × List Eff
  | [] => (c, [])
  | m :: more =>
    let r := onMessage c m
    let q := deliver r.1 more
    (q.1, r.2 ++ q.2)

/-- The spec's out-of-order test: requests "0","1","2" answered in the
order "2","1","0", each with its own result. -/
def c1rev : Conn × List Eff :=
  deliver (requestN 3)
    [{ id := some "2", result := some (.plain (.num 22)) },
     { id := some "1", result := some (.plain (.num 11)) },
     { id := some "0", result := some (.plain (.num 33)) }]

/-- C1: after `N` `request()` calls without explicit ids on one fresh
connection, the id counter equals `N` and the Correlation Table holds
exactly the keys `"0".."N-1"` in order (`rangeHandlers N`), pairwise
distinct since the decimal encoding is injective; a caller-supplied
string id is kept as-is and does not advance the counter; whenever
entry `k` is still pending — whatever else has already been consumed,
so for every arrival order — the Response carrying id `toString k`
invokes exactly the handler ghost-tagged `k`, with that Response's own
error and result, and removes only that entry; and delivering the
responses to requests 0,1,2 fully reversed completes each call with its
own result, leaving the table empty. -/
theorem C1_correlation :
    (∀ N : Nat, (requestN N).lastId = N ∧
      (requestN N).responseHandlers = rangeHandlers N) ∧
    (∀ a b : Nat, natToString a = natToString b → a = b) ∧
    (∀ (c : Conn) (method s : String) (p : Option JSVal),
      (sendRequest c { method := some method, payload := p, id := some s }).2.1.id =
        some s ∧
      (sendRequest c { method := some method, payload := p, id := some s }).1.lastId =
        c.lastId) ∧
    (∀ (c : Conn) (k : Nat) (e r : Option JSVal),
      alistGet c.responseHandlers (natToString k) = some ⟨true, true, k⟩ →
      onMessage c { id := some (natToString k), error := e, result := r } =
        ({ c with responseHandlers := alistDel c.responseHandlers (natToString k) },
          runHandler ⟨true, true, k⟩ e r)) ∧
    c1rev.2 =
      [.cbCall 2 none (some (.plain (.num 22))),
       .promiseResolve 2 (some (.plain (.num 22))),
       .cbCall 1 none (some (.plain (.num 11))),
       .promiseResolve 1 (some (.plain (.num 11))),
       .cbCall 0 none (some (.plain (.num 33))),
       .promiseResolve 0 (some (.plain (.num 33)))] ∧
    c1rev.1.responseHandlers = [] := by
  refine ⟨requestN_state, fun a b => natToString_inj, ?_, ?_, rfl, rfl⟩
  · intro c method s p
    refine ⟨rfl, ?_⟩
    show (sendMessage c _).1.lastId = c.lastId
    rw [sendMessage_fst]
  · intro c k e r hget
    simp [onMessage, methodTruthy, onResponse, idKey, hget]

/-- Witness for C1: on the table built by three requests, the Response
with id "1" routes to handler 1 with its own result. -/
theorem C1_correlation_witness :
    onMessage (requestN 3)
        { id := some (natToString 1), error := none,
          result := some (.plain (.num 5)) } =
      ({ requestN 3 with
          responseHandlers :=
            alistDel (requestN 3).responseHandlers (natToString 1) },
        runHandler ⟨true, true, 1⟩ none (some (.plain (.num 5)))) :=
  C1_correlation.2.2.2.1 (requestN 3) 1 none (some (.plain (.num 5))) rfl

end Conducto
